import Mathlib

/-!
Shallow embedding of the orchestration and merge engine of the
super-deep-research backend, together with proofs about the properties its
specification states.

The embedding follows the Python source:
* `backend/services/report_merger.py` — `Section`, `ReportMerger`
  (`parse_report_sections`, `normalize_title`, `group_similar_sections`,
  `merge_similar_content`, `merge_section_groups`, `generate_master_report`,
  `create_fallback_report`, `create_metadata_footer`, `merge_reports`);
* `backend/services/research_orchestrator.py` — `ResearchOrchestrator`
  (`start_research`, `run_provider_research`) and its progress events;
* `backend/models.py` — the `Provider` and `ResearchStatus` enums.

Modelling conventions:
* Python strings are Lean `String`s; the Python primitives used by the source
  (`str.strip`, `str.split`, `str.split('\n')`, `'sep'.join`, `str.lower`)
  are re-implemented below on the underlying character lists so that they can
  be reasoned about and evaluated.
* `Section.hash` is a stored field, exactly as in the dataclass:
  `__post_init__` computes it once, at construction, from the content the
  section is constructed with, and later mutation of `.content` (which the
  parser performs) does not recompute it.  The MD5 digest itself is modelled
  by the trimmed input string: MD5 is treated as injective, which is faithful
  for every equality the source ever derives from it.
* `async` calls to external collaborators (the LLM gateway, the session
  store, the websocket notifier) are modelled by explicit inputs: an
  `Except`-valued function stands for a call that can raise, and an
  environment record carries the store's answer.  Code paths of the source
  that raise are `Except.error`; total Lean functions model the fact that the
  embedded functions themselves never raise.
-/

namespace SDR

/-! ## Python string primitives (character-list based) -/

/-- Python `str.strip()` on a character list: drop whitespace from both ends. -/
def pyStripChars (l : List Char) : List Char :=
  ((l.dropWhile Char.isWhitespace).reverse.dropWhile Char.isWhitespace).reverse

/-- Python `str.strip()`. -/
def pyStrip (s : String) : String :=
  ⟨pyStripChars s.data⟩

/-- Python `str.split(c)` for a single-character separator (used by the
parser as `content.split('\n')`): split at every occurrence, keeping empty
chunks; the empty string yields `[[]]`. -/
def splitOnChar (c : Char) : List Char → List (List Char)
  | [] => [[]]
  | x :: xs =>
    if x = c then [] :: splitOnChar c xs
    else
      match splitOnChar c xs with
      | [] => [[x]]
      | y :: ys => (x :: y) :: ys

/-- The lines of a string, as Python's `s.split('\n')` produces them. -/
def pyLines (s : String) : List String :=
  (splitOnChar '\n' s.data).map fun cs => ⟨cs⟩

/-- Intercalation of a single character, the inverse of `splitOnChar`. -/
def intercalateChar (c : Char) : List (List Char) → List Char
  | [] => []
  | [x] => x
  | x :: y :: ys => x ++ c :: intercalateChar c (y :: ys)

/-- Python `'sep'.join(strings)`. -/
def joinSep (sep : String) : List String → String
  | [] => ""
  | [x] => x
  | x :: y :: ys => x ++ sep ++ joinSep sep (y :: ys)

/-- Python `str.split()` with no argument: split on whitespace runs and drop
empty chunks. -/
def pyWords (s : String) : List String :=
  ((splitOnChar ' ' (s.data.map fun c => if c.isWhitespace then ' ' else c)).filter
      (· ≠ [])).map fun cs => ⟨cs⟩

/-- Python `str.lower()` (ASCII case folding, which is what the titles the
source handles use). -/
def pyLower (s : String) : String :=
  ⟨s.data.map Char.toLower⟩

/-! ## Data model (`backend/models.py`) -/

/-- `models.Provider` — the three report-generation backends. -/
inductive Provider where
  | openai
  | anthropic
  | xai
deriving DecidableEq, Repr, Inhabited

/-- `Provider.value`, the string payload of the Python `str`-enum. -/
def Provider.value : Provider → String
  | .openai => "openai"
  | .anthropic => "anthropic"
  | .xai => "xai"

/-- `models.ResearchStatus` — the session/task status lifecycle. -/
inductive ResearchStatus where
  | pending
  | in_progress
  | completed
  | failed
  | merged
deriving DecidableEq, Repr, Inhabited

/-- A `models.ProviderReport` row as the merger consumes it: the provider and
its report text (`None` content is modelled by `""`, matching every
truthiness test the source performs on it). -/
structure ProviderReport where
  provider : Provider
  content : String
deriving DecidableEq, Repr, Inhabited

/-! ## `report_merger.Section` and the section parser -/

/-- `report_merger.Section` — one titled span of a provider's report.
`hash` is the stored dataclass field: `__post_init__` writes it exactly once,
at construction; assigning `.content` afterwards leaves it unchanged. -/
structure Section where
  title : String
  content : String
  level : Nat
  provider : Provider
  hash : String
deriving DecidableEq, Repr, Inhabited

/-- Constructing `Section(title=…, content=…, level=…, provider=…)`:
`__post_init__` sets `hash = hashlib.md5(content.strip().encode())`.  MD5 is
modelled as an injective function, represented by the trimmed content
itself; every comparison the source makes between digests is a comparison of
these values. -/
def Section.make (title content : String) (level : Nat) (provider : Provider) : Section :=
  ⟨title, content, level, provider, pyStrip content⟩

/-- The hash every parser-produced section carries: the parser constructs
each `Section` with `content=""` — freezing `hash` at the digest of the
empty string — and only then assigns the accumulated content, which never
re-runs `__post_init__`. -/
def emptyHash : String :=
  pyStrip ""


/-- The per-line semantics of `re.match(r'^(#{1,6})\s+(.+)$', line)`:
`some (level, group2)` when the line is a markdown heading, where `group2`
is the second capture group (the regex engine gives `\s+` its maximal match
that still leaves at least one character for `.+`). -/
def headerMatch (line : String) : Option (Nat × String) :=
  let cs := line.data
  let n := (cs.takeWhile (· = '#')).length
  if 1 ≤ n ∧ n ≤ 6 then
    let rest := cs.drop n
    let w := rest.takeWhile Char.isWhitespace
    let t := rest.drop w.length
    if w.length = 0 then none
    else if t ≠ [] then some (n, ⟨t⟩)
    else if 2 ≤ w.length then some (n, ⟨w.drop (w.length - 1)⟩)
    else none
  else none

/-- Closing the current section in `parse_report_sections`: join the
accumulated lines, strip, and keep the section only when the result is
non-empty. -/
def finishSection (p : Provider) (cur : Option (Nat × String)) (acc : List String) :
    List Section :=
  match cur with
  | none => []
  | some (lvl, title) =>
    let c := pyStrip (joinSep "\n" acc)
    if c = "" then [] else [⟨title, c, lvl, p, emptyHash⟩]

/-- The line loop of `parse_report_sections`: `cur` is the open section's
`(level, title)` and `acc` its accumulated content lines. -/
def parseLines (p : Provider) : List String → Option (Nat × String) → List String → List Section
  | [], cur, acc => finishSection p cur acc
  | line :: rest, cur, acc =>
    match headerMatch line with
    | some (lvl, raw) =>
      finishSection p cur acc ++ parseLines p rest (some (lvl, pyStrip raw)) []
    | none => parseLines p rest cur (acc ++ [line])

/-- `ReportMerger.parse_report_sections`. -/
def parse_report_sections (content : String) (p : Provider) : List Section :=
  parseLines p (pyLines content) none []

/-! ## Grouping (`normalize_title`, `group_similar_sections`) -/

/-- The stopword list of `normalize_title`. -/
def common_words : List String :=
  ["the", "a", "an", "and", "or", "of", "in", "on", "at", "to", "for"]

/-- `re.sub(r'[^\w\s]', '', s)`: keep word characters (alphanumeric or
underscore) and whitespace, drop everything else. -/
def stripNonWordChars (s : String) : String :=
  ⟨s.data.filter fun c => c.isAlphanum || c = '_' || c.isWhitespace⟩

/-- `ReportMerger.normalize_title`: lowercase, strip, drop stopwords, strip
punctuation, collapse whitespace. -/
def normalize_title (title : String) : String :=
  let t := pyStrip (pyLower title)
  let filtered := (pyWords t).filter fun w => ¬ common_words.contains w
  pyStrip (stripNonWordChars (joinSep " " filtered))

/-- One insertion into the `defaultdict(list)` of `group_similar_sections`,
preserving first-seen key order. -/
def addToGroups (key : String) (s : Section) :
    List (String × List Section) → List (String × List Section)
  | [] => [(key, [s])]
  | (k, ss) :: rest =>
    if k = key then (k, ss ++ [s]) :: rest else (k, ss) :: addToGroups key s rest

/-- `ReportMerger.group_similar_sections`: the insertion-ordered dictionary
from normalized title to the sections carrying it. -/
def group_similar_sections (sections : List Section) : List (String × List Section) :=
  sections.foldl (fun gs s => addToGroups (normalize_title s.title) s gs) []

/-! ## Reconciliation (`merge_similar_content`, `merge_section_groups`) -/

/-- A dictionary result of `BaseProvider.generate_research_report`: the
report text and the optional auxiliary reasoning. -/
structure GenResult where
  content : String
  thinking : Option String
deriving DecidableEq, Repr, Inhabited

/-- The merge provider as the merger sees it through
`LLMProviderService.get_provider`: `none` when unconfigured (no API key);
`some f` when configured, where `f prompt` is `Except.error msg` when the
synthesis call raises and `Except.ok result` when it returns. -/
def MergeLLM : Type :=
  Option (String → Except String GenResult)

/-- A merged section: the dictionaries `merge_section_groups` builds, with
keys `title`, `content`, `level`, `sources`. -/
structure MergedSection where
  title : String
  content : String
  level : Nat
  sources : List Provider
deriving DecidableEq, Repr, Inhabited

/-- The `unique_contents` dictionary of `merge_similar_content`: the first
section for each distinct content hash, in insertion order. -/
def uniqueByHash (l : List Section) : List Section :=
  l.foldl
    (fun acc s => if acc.any (fun t => t.hash == s.hash) then acc else acc ++ [s])
    []

/-- One block of the merge-provider-unavailable fallback:
`f"**According to {s.provider.value}:**\n{s.content}"`. -/
def accordingBlock (s : Section) : String :=
  "**According to " ++ s.provider.value ++ ":**\n" ++ s.content

/-- One block of the synthesis-call-raised fallback:
`f"**{s.provider.value}:**\n{s.content}"`. -/
def plainBlock (s : Section) : String :=
  "**" ++ s.provider.value ++ ":**\n" ++ s.content

/-- The synthesis prompt `merge_similar_content` builds for the merge
provider. -/
def mergePrompt (sections uniques : List Section) : String :=
  "You are tasked with merging the following sections from different AI providers into a single, cohesive section. \nPlease:\n1. Identify and keep all unique information\n2. Resolve any conflicting information by noting the different perspectives\n3. Remove redundant information\n4. Create a well-structured, unified section\n5. Maintain factual accuracy and cite sources when there are disagreements\n6. IMPORTANT: Preserve all inline citations [1], [2], etc. from the original sections\n7. IMPORTANT: Keep track of all references for the final References section\n\nSection Title: "
    ++ (sections.headD default).title ++ "\n\n"
    ++ String.join (uniques.map fun s =>
        "\n---\nFrom " ++ s.provider.value ++ ":\n" ++ s.content ++ "\n")
    ++ "\n---\nPlease provide the merged section content (preserve all citations):"

/-- `ReportMerger.merge_similar_content` for a group of sections sharing a
normalized title (the source calls it only with two or more sections). -/
def merge_similar_content (llm : MergeLLM) (sections : List Section) : MergedSection :=
  let uniques := uniqueByHash sections
  if uniques.length = 1 then
    let s := uniques.headD default
    ⟨s.title, s.content, s.level, sections.map (·.provider)⟩
  else
    let first := sections.headD default
    match llm with
    | none =>
      ⟨first.title, joinSep "\n\n" (uniques.map accordingBlock), first.level,
        sections.map (·.provider)⟩
    | some f =>
      match f (mergePrompt sections uniques) with
      | .ok result =>
        ⟨first.title, result.content, first.level, sections.map (·.provider)⟩
      | .error _ =>
        ⟨first.title, joinSep "\n\n" (uniques.map plainBlock), first.level,
          sections.map (·.provider)⟩

/-- One group's contribution in `merge_section_groups`: singleton groups pass
through unchanged, larger groups are reconciled. -/
def mergeGroup (llm : MergeLLM) (kv : String × List Section) : MergedSection :=
  match kv.2 with
  | [s] => ⟨s.title, s.content, s.level, [s.provider]⟩
  | ss => merge_similar_content llm ss

/-- The sort key of `merge_section_groups`: ascending by `(level, title)`. -/
def msLE (a b : MergedSection) : Prop :=
  a.level < b.level ∨ (a.level = b.level ∧ a.title ≤ b.title)

instance msLE.decidableRel : DecidableRel msLE := fun a b =>
  show Decidable (a.level < b.level ∨ (a.level = b.level ∧ a.title ≤ b.title)) from
    inferInstance

instance msLE.isTotal : IsTotal MergedSection msLE := by
  constructor
  intro a b
  rcases Nat.lt_trichotomy a.level b.level with h | h | h
  · exact Or.inl (Or.inl h)
  · rcases le_total a.title b.title with ht | ht
    · exact Or.inl (Or.inr ⟨h, ht⟩)
    · exact Or.inr (Or.inr ⟨h.symm, ht⟩)
  · exact Or.inr (Or.inl h)

instance msLE.isTrans : IsTrans MergedSection msLE := by
  constructor
  intro a b c hab hbc
  rcases hab with h1 | ⟨e1, t1⟩ <;> rcases hbc with h2 | ⟨e2, t2⟩
  · exact Or.inl (h1.trans h2)
  · exact Or.inl (e2 ▸ h1)
  · exact Or.inl (e1 ▸ h2)
  · exact Or.inr ⟨e1.trans e2, t1.trans t2⟩

/-- `ReportMerger.merge_section_groups`: reconcile every group, then
`merged_sections.sort(key=lambda x: (x['level'], x['title']))`. -/
def merge_section_groups (llm : MergeLLM) (groups : List (String × List Section)) :
    List MergedSection :=
  List.insertionSort msLE (groups.map (mergeGroup llm))

/-! ## Assembly (`generate_master_report` and its fallback) -/

/-- A `report_merger.MasterReportResult`. -/
structure MasterReportResult where
  content : String
  thinking : Option String
deriving DecidableEq, Repr, Inhabited

/-- `"#" * level`. -/
def hashMarks (level : Nat) : String :=
  ⟨List.replicate level '#'⟩

/-- `ReportMerger.create_metadata_footer`; `now` is the formatted
`datetime.utcnow()` timestamp. -/
def create_metadata_footer (reports : List ProviderReport) (now : String) : String :=
  "\n\n---\n\n## Report Metadata\n\n"
    ++ "This master report was generated by merging research from the following providers:\n\n"
    ++ String.join (reports.map fun r =>
        "- **" ++ r.provider.value ++ "**: " ++ toString (pyWords r.content).length
          ++ " words\n")
    ++ "\nGenerated on: " ++ now ++ "\n"

/-- `ReportMerger.create_fallback_report`. -/
def create_fallback_report (merged : List MergedSection) (reports : List ProviderReport)
    (now : String) : String :=
  "# Master Research Report\n\n"
    ++ "## Executive Summary\n\n"
    ++ "This report synthesizes research from multiple AI providers to provide comprehensive insights.\n\n"
    ++ String.join (merged.map fun s =>
        hashMarks s.level ++ " " ++ s.title ++ "\n\n" ++ s.content ++ "\n\n"
          ++ "*Sources: " ++ joinSep ", " (s.sources.map Provider.value) ++ "*\n\n")
    ++ create_metadata_footer reports now

/-- The `section_summary` listing of `generate_master_report`. -/
def sectionSummary (merged : List MergedSection) : String :=
  joinSep "\n" (merged.map fun s =>
    "- " ++ s.title ++ " (from " ++ joinSep ", " (s.sources.map Provider.value) ++ ")")

/-- The master-synthesis prompt of `generate_master_report`. -/
def masterPrompt (merged : List MergedSection) : String :=
  "You are creating a master research report by synthesizing content from multiple AI providers.\n\nYou have the following merged sections available:\n"
    ++ sectionSummary merged
    ++ "\n\nPlease create:\n1. An executive summary that captures the key findings across all sources\n2. A well-structured report that incorporates all the merged sections\n3. A conclusion that synthesizes insights from all providers\n4. Recommendations based on the collective analysis\n5. IMPORTANT: Consolidate all citations and create a unified ## References section at the end\n6. IMPORTANT: Renumber citations [1], [2], etc. to be consistent throughout the merged report\n\nThe merged sections content is provided below. Please integrate them into a cohesive, professional research report.\n\n---\n"
    ++ String.join (merged.map fun s => "\n## " ++ s.title ++ "\n" ++ s.content ++ "\n")
    ++ "\n---\nPlease generate the complete master report with a unified References section:"

/-- `ReportMerger.generate_master_report`: synthesize via the merge provider
when it is configured and its call returns, otherwise the deterministic
fallback. -/
def generate_master_report (llm : MergeLLM) (merged : List MergedSection)
    (reports : List ProviderReport) (now : String) : MasterReportResult :=
  match llm with
  | none => ⟨create_fallback_report merged reports now, none⟩
  | some f =>
    match f (masterPrompt merged) with
    | .ok result =>
      ⟨result.content ++ create_metadata_footer reports now, result.thinking⟩
    | .error _ => ⟨create_fallback_report merged reports now, none⟩

/-! ## Top-level merger (`merge_reports`) -/

/-- The `all_sections` accumulation of `merge_reports`: parse every report
with truthy (non-empty) content. -/
def allSections (reports : List ProviderReport) : List Section :=
  (reports.map fun r =>
    if r.content ≠ "" then parse_report_sections r.content r.provider else []).flatten

/-- The merged sections `merge_reports` hands to `generate_master_report`. -/
def mergedSectionsOf (llm : MergeLLM) (reports : List ProviderReport) :
    List MergedSection :=
  merge_section_groups llm (group_similar_sections (allSections reports))

/-- `ReportMerger.merge_reports`: parse → group → reconcile → assemble. -/
def merge_reports (llm : MergeLLM) (reports : List ProviderReport) (now : String) :
    MasterReportResult :=
  generate_master_report llm (mergedSectionsOf llm reports) reports now

/-! ## Research orchestrator (`research_orchestrator.py`) -/

/-- The per-provider settings `start_research` reads.  The class itself is
imported by the orchestrator but not defined under the sources at hand; its
shape is fully determined by the two reads the orchestrator performs:
`settings.model` (a string whose Python truthiness decides whether it
overrides the default, so `""` models an absent override) and
`settings.max_tokens`. -/
structure ProviderSettings where
  model : String
  max_tokens : Nat
deriving DecidableEq, Repr, Inhabited

/-- `DEFAULT_MODELS` of `research_orchestrator.py`. -/
def DEFAULT_MODELS : Provider → Option String
  | .openai => some "o3-deep-research-2025-06-26"
  | .anthropic => some "claude-sonnet-4-5-20250929"
  | .xai => some "grok-4-0709"

/-- The model/token resolution of the task-creation loop of
`start_research`: `none` means the provider is skipped (`continue`). -/
def launchPlan (provider_settings : Option (List (String × ProviderSettings)))
    (p : Provider) : Option (String × Nat) :=
  let dm := DEFAULT_MODELS p
  let resolved :=
    match provider_settings with
    | none => (dm, 8000)
    | some dict =>
      match dict.lookup p.value with
      | none => (dm, 8000)
      | some st => (if st.model ≠ "" then some st.model else dm, st.max_tokens)
  match resolved.1 with
  | none => none
  | some m => some (m, resolved.2)

/-- One progress event sent through `send_websocket_update` (the
`WebSocketMessage` fields the claims are about). -/
structure Event where
  status : String
  progress : ℚ
  content : Option String
  error : Option String
deriving DecidableEq, Repr, Inhabited

/-- The environment one provider's unit of work runs against: whether its
`ProviderReport` row exists in the store, and what the external generation
call does (`Except.error` models the call raising). -/
structure ProviderEnv where
  recordExists : Bool
  gen : Except String GenResult
deriving Repr, Inhabited

/-- The result dictionary `run_provider_research` returns. -/
structure RunResult where
  provider : String
  status : ResearchStatus
  content_length : Option Nat
  error : Option String
deriving DecidableEq, Repr, Inhabited

/-- The bounded content preview of the completion event: first 500
characters plus an ellipsis when longer. -/
def contentPreview (c : String) : String :=
  if c.length > 500 then c.take 500 ++ "..." else c

/-- `ResearchOrchestrator.run_provider_research`, as the pair of its return
value and the progress events it emits, in emission order.  The store lookup
and the generation call are read from `env`; the notifier and the store
writes are modelled as non-raising, which is the only behaviour the
specification assigns them. -/
def run_provider_research (env : ProviderEnv) (p : Provider) :
    RunResult × List Event :=
  let starting : Event := ⟨"starting", 1/10, none, none⟩
  if env.recordExists then
    let inprog : Event := ⟨"in_progress", 3/10, none, none⟩
    match env.gen with
    | .ok result =>
      let processing : Event := ⟨"processing", 8/10, none, none⟩
      let done : Event := ⟨"completed", 1, some (contentPreview result.content), none⟩
      (⟨p.value, .completed, some result.content.length, none⟩,
        [starting, inprog, processing, done])
    | .error msg =>
      let failedEv : Event := ⟨"failed", 1, none, some msg⟩
      (⟨p.value, .failed, none, some msg⟩, [starting, inprog, failedEv])
  else
    (⟨p.value, .failed, none, some "Provider report record not found"⟩, [starting])

/-- One element of the list `asyncio.gather(*tasks, return_exceptions=True)`
returns: either a task's result dictionary or a captured exception. -/
inductive TaskOutcome where
  | res (r : RunResult)
  | exn (msg : String)
deriving DecidableEq, Repr, Inhabited

/-- The per-result success test of `start_research`:
`isinstance(result, dict) and result.get("status") == ResearchStatus.COMPLETED`. -/
def outcomeCompleted : TaskOutcome → Bool
  | .res r => r.status = .completed
  | .exn _ => false

/-- The aggregate rule of `start_research`: `COMPLETED` when `all(...)`
holds over the gathered results, else `FAILED`. -/
def session_final_status (results : List TaskOutcome) : ResearchStatus :=
  if results.all outcomeCompleted then .completed else .failed

/-- `ResearchOrchestrator.start_research`: resolve each provider's model,
launch a unit of work per resolved provider, gather, and compute the final
session status.  Returns the final status, the gathered outcomes, and each
launched provider's emitted events. -/
def start_research (provider_settings : Option (List (String × ProviderSettings)))
    (providers : List Provider) (envs : Provider → ProviderEnv) :
    ResearchStatus × List TaskOutcome × List (Provider × List Event) :=
  let launched := providers.filter fun p => (launchPlan provider_settings p).isSome
  let runs := launched.map fun p => (p, run_provider_research (envs p) p)
  let results := runs.map fun pr => TaskOutcome.res pr.2.1
  (session_final_status results, results, runs.map fun pr => (pr.1, pr.2.2))

/-- Whether a progress event is terminal (`completed` or `failed`). -/
def isTerminalEvent (e : Event) : Bool :=
  e.status == "completed" || e.status == "failed"

/-- The sequence of `progress` values one provider's unit of work emits. -/
def progressSeq (env : ProviderEnv) (p : Provider) : List ℚ :=
  ((run_provider_research env p).2).map Event.progress

/-!
# Supporting lemmas
-/

theorem ne_empty_of_length_pos (s : String) (h : 0 < s.length) : s ≠ "" := by
  intro he
  rw [he] at h
  exact absurd h (by decide)

theorem append_ne_empty_left (s t : String) (h : 0 < s.length) : s ++ t ≠ "" := by
  apply ne_empty_of_length_pos
  rw [String.length_append]
  omega

theorem append_ne_empty_right (s t : String) (h : 0 < t.length) : s ++ t ≠ "" := by
  apply ne_empty_of_length_pos
  rw [String.length_append]
  omega

theorem length_append_pos_left (s t : String) (h : 0 < s.length) : 0 < (s ++ t).length := by
  rw [String.length_append]
  omega

end SDR

namespace SDR

/-- C1 -/
theorem c1_session_status_iff (ps : Option (List (String × ProviderSettings)))
    (providers : List Provider) (envs : Provider → ProviderEnv) :
    (start_research ps providers envs).1 = ResearchStatus.completed ↔
      ∀ o ∈ (start_research ps providers envs).2.1, outcomeCompleted o = true := by
  unfold start_research session_final_status
  dsimp only
  constructor
  · intro hc
    split at hc
    · next hall => exact fun o ho => List.all_eq_true.mp hall o ho
    · exact absurd hc (by decide)
  · intro hall
    rw [if_pos (List.all_eq_true.mpr hall)]

/-- C1 counterexample -/
theorem c1_zero_launchable_cex :
    (start_research none [] fun _ => ⟨true, Except.ok ⟨"", none⟩⟩).1 =
        ResearchStatus.completed ∧
      ResearchStatus.completed ≠ ResearchStatus.failed := by
  exact ⟨rfl, by decide⟩

/-- C3 -/
theorem c3_exactly_one_terminal (env : ProviderEnv) (p : Provider)
    (h : env.recordExists = true) :
    (((run_provider_research env p).2).filter isTerminalEvent).length = 1 ∧
      ∀ e ∈ ((run_provider_research env p).2).filter isTerminalEvent, e.progress = 1 := by
  obtain ⟨re, gen⟩ := env
  simp only at h
  subst h
  cases gen <;> simp [run_provider_research, isTerminalEvent]

/-- C3 witness -/
theorem c3_exactly_one_terminal_witness :
    (ProviderEnv.mk true (Except.ok ⟨"hello", none⟩)).recordExists = true ∧
      (((run_provider_research ⟨true, Except.ok ⟨"hello", none⟩⟩ Provider.openai).2).filter
          isTerminalEvent).length = 1 :=
  ⟨rfl, (c3_exactly_one_terminal ⟨true, Except.ok ⟨"hello", none⟩⟩ Provider.openai rfl).1⟩

/-- C3 counterexample -/
theorem c3_missing_record_cex :
    ¬ ((((run_provider_research ⟨false, Except.ok ⟨"", none⟩⟩ Provider.openai).2).filter
        isTerminalEvent).length = 1) := by
  decide

/-- C9 -/
theorem c9_progress_monotone (env : ProviderEnv) (p : Provider) :
    (progressSeq env p).Pairwise (· < ·) ∧
      (env.recordExists = true → (progressSeq env p).getLast? = some 1) ∧
      (env.recordExists = false → progressSeq env p = [1/10]) := by
  obtain ⟨re, gen⟩ := env
  cases re <;> cases gen <;>
    simp [progressSeq, run_provider_research] <;> norm_num

/-- C9 witness -/
theorem c9_progress_monotone_witness :
    (ProviderEnv.mk true (Except.error "t")).recordExists = true ∧
      (progressSeq ⟨true, Except.error "t"⟩ Provider.openai).getLast? = some 1 :=
  ⟨rfl, (c9_progress_monotone ⟨true, Except.error "t"⟩ Provider.openai).2.1 rfl⟩

/-- C9 counterexample -/
theorem c9_failure_not_ending_one_cex :
    (run_provider_research ⟨false, Except.ok ⟨"", none⟩⟩ Provider.openai).1.status =
        ResearchStatus.failed ∧
      (progressSeq ⟨false, Except.ok ⟨"", none⟩⟩ Provider.openai).getLast? ≠ some 1 := by
  refine ⟨rfl, ?_⟩
  simp [progressSeq, run_provider_research]

/-- C7: the merged-section list handed to assembly is sorted ascending by
the pair (level, title), and a second invocation on the same input produces
the identical list — determinism is intrinsic here because the embedding
makes the only sources of nondeterminism in the source (the merge provider's
answer and the timestamp) explicit inputs. -/
theorem c7_sorted_sections (llm : MergeLLM) (groups : List (String × List Section)) :
    List.Sorted msLE (merge_section_groups llm groups) ∧
      merge_section_groups llm groups = merge_section_groups llm groups :=
  ⟨List.sorted_insertionSort msLE _, rfl⟩

theorem dropWhile_eq_self_of_head? {α : Type} {p : α → Bool} {l : List α}
    (h : ∀ a, l.head? = some a → p a = false) : l.dropWhile p = l := by
  cases l with
  | nil => rfl
  | cons a t => rw [List.dropWhile_cons, h a rfl]; simp

theorem isPrefix_head? {α : Type} {l₁ l₂ : List α} (h : l₁ <+: l₂) (hne : l₁ ≠ []) :
    l₂.head? = l₁.head? := by
  obtain ⟨t, rfl⟩ := h
  cases l₁ with
  | nil => exact absurd rfl hne
  | cons a s => rfl

theorem head?_dropWhile_false {α : Type} (p : α → Bool) (l : List α) :
    ∀ a, (l.dropWhile p).head? = some a → p a = false := by
  intro a ha
  have h := List.head?_dropWhile_not p l
  rw [ha] at h
  exact h

theorem pyStripChars_idem (l : List Char) :
    pyStripChars (pyStripChars l) = pyStripChars l := by
  unfold pyStripChars
  set A := l.dropWhile Char.isWhitespace with hA
  set B := A.reverse.dropWhile Char.isWhitespace with hB
  have hBsuffix : B <:+ A.reverse := by
    rw [hB]; exact List.dropWhile_suffix _
  have hBrevPre : B.reverse <+: A := by
    have := (@List.reverse_prefix _ B A.reverse).mpr hBsuffix
    rwa [List.reverse_reverse] at this
  have hArevhead : ∀ a, A.head? = some a → Char.isWhitespace a = false := by
    intro a ha
    apply head?_dropWhile_false Char.isWhitespace l
    rw [← hA]; exact ha
  have h1 : B.reverse.dropWhile Char.isWhitespace = B.reverse := by
    apply dropWhile_eq_self_of_head?
    intro a ha
    rcases eq_or_ne B.reverse [] with he | hne
    · rw [he] at ha; cases ha
    · exact hArevhead a (by rw [isPrefix_head? hBrevPre hne]; exact ha)
  rw [h1, List.reverse_reverse]
  have h2 : B.dropWhile Char.isWhitespace = B := by
    apply dropWhile_eq_self_of_head?
    intro a ha
    exact head?_dropWhile_false Char.isWhitespace A.reverse a (by rw [← hB]; exact ha)
  rw [h2]

theorem pyStrip_idem (s : String) : pyStrip (pyStrip s) = pyStrip s := by
  unfold pyStrip
  exact congrArg String.mk (pyStripChars_idem s.data)


theorem splitOnChar_ne_nil (c : Char) (l : List Char) : splitOnChar c l ≠ [] := by
  induction l with
  | nil => simp [splitOnChar]
  | cons x xs ih =>
    by_cases hx : x = c
    · simp [splitOnChar, hx]
    · rw [splitOnChar, if_neg hx]
      cases hr : splitOnChar c xs with
      | nil => simp
      | cons y ys => simp

theorem intercalateChar_splitOnChar (c : Char) (l : List Char) :
    intercalateChar c (splitOnChar c l) = l := by
  induction l with
  | nil => rfl
  | cons x xs ih =>
    by_cases hx : x = c
    · subst hx
      rw [splitOnChar, if_pos rfl]
      cases hr : splitOnChar x xs with
      | nil => exact absurd hr (splitOnChar_ne_nil x xs)
      | cons y ys =>
        rw [hr] at ih
        rw [intercalateChar]
        simpa using congrArg (x :: ·) ih
    · rw [splitOnChar, if_neg hx]
      cases hr : splitOnChar c xs with
      | nil => exact absurd hr (splitOnChar_ne_nil c xs)
      | cons y ys =>
        rw [hr] at ih
        cases ys with
        | nil =>
          rw [intercalateChar] at ih ⊢
          rw [ih]
        | cons z zs =>
          rw [intercalateChar] at ih ⊢
          rw [List.cons_append, ih]

theorem joinSep_map_mk (c : Char) (lls : List (List Char)) :
    joinSep ⟨[c]⟩ (lls.map fun cs => (⟨cs⟩ : String)) = ⟨intercalateChar c lls⟩ := by
  induction lls with
  | nil => rfl
  | cons x xs ih =>
    cases xs with
    | nil => rfl
    | cons y ys =>
      simp only [List.map_cons] at ih ⊢
      show (⟨x⟩ : String) ++ (⟨[c]⟩ : String) ++
          joinSep ⟨[c]⟩ ((⟨y⟩ : String) :: ys.map fun cs => (⟨cs⟩ : String)) =
        ⟨x ++ c :: intercalateChar c (y :: ys)⟩
      rw [ih]
      apply String.ext
      simp [String.data_append]

theorem joinSep_pyLines (s : String) : joinSep "\n" (pyLines s) = s := by
  have h : ("\n" : String) = (⟨['\n']⟩ : String) := rfl
  rw [pyLines, h, joinSep_map_mk, intercalateChar_splitOnChar]

theorem splitOnChar_append_cons (c : Char) (a b : List Char) (h : c ∉ a) :
    splitOnChar c (a ++ c :: b) = a :: splitOnChar c b := by
  induction a with
  | nil => simp [splitOnChar]
  | cons x a' ih =>
    have hx : x ≠ c := fun he => h (he ▸ List.mem_cons_self x a')
    have h' : c ∉ a' := fun hm => h (List.mem_cons_of_mem x hm)
    rw [List.cons_append, splitOnChar, if_neg hx, ih h']

theorem pyLines_append (s t : String) (h : '\n' ∉ s.data) :
    pyLines (s ++ "\n" ++ t) = s :: pyLines t := by
  unfold pyLines
  have hd : (s ++ "\n" ++ t).data = s.data ++ '\n' :: t.data := by
    simp [String.data_append]
  rw [hd, splitOnChar_append_cons '\n' s.data t.data h, List.map_cons]


theorem takeWhile_replicate_append (n : Nat) (a c : Char) (r : List Char) (h : c ≠ a) :
    (List.replicate n a ++ c :: r).takeWhile (· = a) = List.replicate n a := by
  induction n with
  | zero => simp [List.takeWhile_cons, h]
  | succ m ih =>
    rw [List.replicate_succ, List.cons_append, List.takeWhile_cons]
    simp [ih]

theorem data_ne_nil_of_ne_empty {s : String} (h : s ≠ "") : s.data ≠ [] := by
  intro hd
  exact h (String.ext (hd.trans rfl))

theorem headerMatch_heading (lvl : Nat) (title : String) (h1 : 1 ≤ lvl) (h2 : lvl ≤ 6)
    (h3 : title ≠ "") (hw : ∀ a, title.data.head? = some a → Char.isWhitespace a = false) :
    headerMatch (hashMarks lvl ++ " " ++ title) = some (lvl, title) := by
  have hdata : (hashMarks lvl ++ " " ++ title).data
      = List.replicate lvl '#' ++ ' ' :: title.data := by
    simp [hashMarks, String.data_append]
  obtain ⟨a, t, hat⟩ : ∃ a t, title.data = a :: t := by
    cases hcd : title.data with
    | nil => exact absurd hcd (data_ne_nil_of_ne_empty h3)
    | cons a t => exact ⟨a, t, rfl⟩
  have hws : Char.isWhitespace a = false := hw a (by rw [hat]; rfl)
  have htw : (List.replicate lvl '#' ++ ' ' :: title.data).takeWhile (· = '#')
      = List.replicate lvl '#' :=
    takeWhile_replicate_append lvl '#' ' ' title.data (by decide)
  have hdrop : (List.replicate lvl '#' ++ ' ' :: title.data).drop lvl = ' ' :: title.data :=
    List.drop_left' (List.length_replicate lvl '#')
  have htw2 : (' ' :: title.data).takeWhile Char.isWhitespace = [' '] := by
    rw [List.takeWhile_cons]
    simp only [show Char.isWhitespace ' ' = true by decide, if_true]
    rw [hat, List.takeWhile_cons, hws]
    simp
  unfold headerMatch
  simp only [hdata, htw, List.length_replicate, hdrop, htw2]
  rw [if_pos ⟨h1, h2⟩]
  simp only [List.length_cons, List.length_nil]
  rw [if_neg (by omega)]
  rw [List.drop_one, List.tail_cons]
  rw [if_pos (by rw [hat]; simp)]


theorem parseLines_no_heading (p : Provider) (ls : List String) :
    ∀ (cur : Option (Nat × String)) (acc : List String),
      (∀ l ∈ ls, headerMatch l = none) →
      parseLines p ls cur acc = finishSection p cur (acc ++ ls) := by
  induction ls with
  | nil => intro cur acc _; simp [parseLines]
  | cons l rest ih =>
    intro cur acc h
    have hl : headerMatch l = none := h l (List.mem_cons_self l rest)
    rw [parseLines, hl]
    rw [ih cur (acc ++ [l]) fun x hx => h x (List.mem_cons_of_mem l hx)]
    simp

theorem parseLines_none_acc (p : Provider) (ls : List String) :
    ∀ acc acc', parseLines p ls none acc = parseLines p ls none acc' := by
  induction ls with
  | nil => intro acc acc'; rfl
  | cons l rest ih =>
    intro acc acc'
    rw [parseLines, parseLines]
    cases hm : headerMatch l with
    | some v => rfl
    | none => exact ih (acc ++ [l]) (acc' ++ [l])

theorem mem_finishSection {p : Provider} {cur : Option (Nat × String)} {acc : List String}
    {s : Section} (h : s ∈ finishSection p cur acc) :
    s.content ≠ "" ∧ pyStrip s.content = s.content := by
  match cur with
  | none => cases h
  | some (lvl, title) =>
    rw [finishSection] at h
    by_cases hc : pyStrip (joinSep "\n" acc) = ""
    · rw [if_pos hc] at h; cases h
    · rw [if_neg hc] at h
      rcases List.mem_singleton.mp h with rfl
      exact ⟨hc, pyStrip_idem _⟩

theorem mem_parseLines_content (p : Provider) (ls : List String) :
    ∀ (cur : Option (Nat × String)) (acc : List String) (s : Section),
      s ∈ parseLines p ls cur acc →
      s.content ≠ "" ∧ pyStrip s.content = s.content := by
  induction ls with
  | nil => intro cur acc s h; exact mem_finishSection h
  | cons l rest ih =>
    intro cur acc s h
    rw [parseLines] at h
    cases hm : headerMatch l with
    | some v =>
      rw [hm] at h
      rcases List.mem_append.mp h with h' | h'
      · exact mem_finishSection h'
      · exact ih _ _ s h'
    | none =>
      rw [hm] at h
      exact ih _ _ s h

/-- C8: the parser is total (a total Lean function, mirroring that no
code path of `parse_report_sections` raises); input with no heading line
parses to zero sections; every produced section has non-empty (and trimmed)
content, so a heading whose accumulated content trims to empty yields no
section; and prepending heading-free text leaves the parse unchanged, i.e.
text before the first heading is discarded. -/
theorem c8_parse_never_fails (content : String) (p : Provider) :
    ((∀ l ∈ pyLines content, headerMatch l = none) →
        parse_report_sections content p = []) ∧
      (∀ s ∈ parse_report_sections content p,
        s.content ≠ "" ∧ pyStrip s.content = s.content) ∧
      (∀ pre : List String, (∀ l ∈ pre, headerMatch l = none) →
        parseLines p (pre ++ pyLines content) none [] = parse_report_sections content p) := by
  refine ⟨?_, ?_, ?_⟩
  · intro h
    rw [parse_report_sections, parseLines_no_heading p _ none [] h]
    rfl
  · intro s hs
    exact mem_parseLines_content p _ none [] s hs
  · intro pre hpre
    rw [parse_report_sections]
    induction pre with
    | nil => rfl
    | cons l rest ih =>
      have hl : headerMatch l = none := hpre l (List.mem_cons_self l rest)
      rw [List.cons_append, parseLines, hl]
      rw [parseLines_none_acc p (rest ++ pyLines content) ([] ++ [l]) []]
      exact ih fun x hx => hpre x (List.mem_cons_of_mem l hx)

/-- C8 witness: a concrete heading-less input parses to the empty section
list. -/
theorem c8_parse_never_fails_witness :
    parse_report_sections "just prose\nwith no headings" Provider.openai = [] :=
  (c8_parse_never_fails "just prose\nwith no headings" Provider.openai).1 (by decide)


theorem head_not_ws_of_pyStrip {s : String} (h : pyStrip s = s) :
    ∀ a, s.data.head? = some a → Char.isWhitespace a = false := by
  intro a ha
  by_contra hwne
  rw [Bool.not_eq_false] at hwne
  obtain ⟨t, hat⟩ : ∃ t, s.data = a :: t := by
    cases hd : s.data with
    | nil => rw [hd] at ha; cases ha
    | cons x xs =>
      rw [hd] at ha
      cases ha
      exact ⟨xs, rfl⟩
  have hlen : (pyStripChars s.data).length < s.data.length := by
    rw [hat]
    unfold pyStripChars
    have e1 : (a :: t).dropWhile Char.isWhitespace = t.dropWhile Char.isWhitespace := by
      rw [List.dropWhile_cons, hwne]
      simp
    rw [e1]
    have l1 : (t.dropWhile Char.isWhitespace).length ≤ t.length :=
      (List.dropWhile_suffix _).length_le
    have l2 : ((t.dropWhile Char.isWhitespace).reverse.dropWhile Char.isWhitespace).length
        ≤ (t.dropWhile Char.isWhitespace).reverse.length :=
      (List.dropWhile_suffix _).length_le
    simp only [List.length_reverse] at l2 ⊢
    simp only [List.length_cons]
    omega
  have hdata : pyStripChars s.data = s.data := congrArg String.data h
  rw [hdata] at hlen
  omega

/-- C6 (amended): re-parsing a well-formed section's heading line followed
by its content reproduces exactly that section — including its stored hash,
which for every parser-produced section is the digest of the empty string —
where well-formed additionally requires the title to be non-empty,
newline-free and equal to its own trim (conditions the claim's
characterisation omits but the counterexample forces). -/
theorem c6_reparse_roundtrip (s : Section) (h1 : 1 ≤ s.level) (h2 : s.level ≤ 6)
    (h3 : s.title ≠ "") (h4 : '\n' ∉ s.title.data) (h5 : pyStrip s.title = s.title)
    (h6 : pyStrip s.content = s.content) (h7 : s.content ≠ "")
    (h8 : ∀ l ∈ pyLines s.content, headerMatch l = none) (h9 : s.hash = emptyHash) :
    parse_report_sections (hashMarks s.level ++ " " ++ s.title ++ "\n" ++ s.content)
      s.provider = [s] := by
  have hnoNl : '\n' ∉ (hashMarks s.level ++ " " ++ s.title).data := by
    intro hm
    simp only [String.data_append, List.mem_append] at hm
    rcases hm with (hm | hm) | hm
    · simp only [hashMarks] at hm
      exact absurd (List.eq_of_mem_replicate hm) (by decide)
    · simp at hm
    · exact h4 hm
  rw [parse_report_sections, pyLines_append _ _ hnoNl]
  rw [parseLines, headerMatch_heading s.level s.title h1 h2 h3 (head_not_ws_of_pyStrip h5)]
  show finishSection s.provider none [] ++
      parseLines s.provider (pyLines s.content) (some (s.level, pyStrip s.title)) [] = [s]
  rw [parseLines_no_heading s.provider _ _ [] h8]
  rw [h5]
  simp only [finishSection, List.nil_append, joinSep_pyLines, h6]
  rw [if_neg h7, ← h9]

/-- C6 counterexample: the parser can produce a section with empty title
(input `"#  \nbody"`), and that section satisfies every condition of the
claim's well-formedness characterisation, yet re-parsing its heading line
(`"# "`) followed by its content yields no section at all. -/
theorem c6_empty_title_cex :
    parse_report_sections "#  \nbody" Provider.openai
        = [⟨"", "body", 1, Provider.openai, emptyHash⟩] ∧
      (1 ≤ 1 ∧ 1 ≤ 6 ∧ pyStrip "body" = "body" ∧ ("body" : String) ≠ "" ∧
        ∀ l ∈ pyLines "body", headerMatch l = none) ∧
      parse_report_sections (hashMarks 1 ++ " " ++ "" ++ "\n" ++ "body") Provider.openai
        ≠ [⟨"", "body", 1, Provider.openai, emptyHash⟩] := by
  decide

/-- C6 witness: a concrete well-formed section round-trips through the
parser. -/
theorem c6_reparse_roundtrip_witness :
    parse_report_sections
        (hashMarks 2 ++ " " ++ "Market Overview" ++ "\n" ++ "Some findings.")
        Provider.anthropic
      = [⟨"Market Overview", "Some findings.", 2, Provider.anthropic, emptyHash⟩] :=
  c6_reparse_roundtrip ⟨"Market Overview", "Some findings.", 2, Provider.anthropic, emptyHash⟩
    (by decide) (by decide) (by decide) (by decide) (by decide) (by decide) (by decide)
    (by decide) (by decide)


theorem addToGroups_correct (key : String) (s : Section) :
    ∀ gs : List (String × List Section),
      (∀ kv ∈ gs, ∀ t ∈ kv.2, normalize_title t.title = kv.1) →
      normalize_title s.title = key →
      ∀ kv ∈ addToGroups key s gs, ∀ t ∈ kv.2, normalize_title t.title = kv.1 := by
  intro gs
  induction gs with
  | nil =>
    intro _ hk kv hkv t ht
    rcases List.mem_singleton.mp hkv with rfl
    rcases List.mem_singleton.mp ht with rfl
    exact hk
  | cons g rest ih =>
    intro hinv hk kv hkv t ht
    obtain ⟨k, ss⟩ := g
    rw [addToGroups] at hkv
    by_cases hkey : k = key
    · rw [if_pos hkey] at hkv
      rcases List.mem_cons.mp hkv with rfl | h'
      · rcases List.mem_append.mp ht with h'' | h''
        · exact hinv (k, ss) (List.mem_cons_self _ _) t h''
        · rcases List.mem_singleton.mp h'' with rfl
          rw [hk, hkey]
      · exact hinv kv (List.mem_cons_of_mem _ h') t ht
    · rw [if_neg hkey] at hkv
      rcases List.mem_cons.mp hkv with rfl | h'
      · exact hinv _ (List.mem_cons_self _ _) t ht
      · exact ih (fun kv' hkv' => hinv kv' (List.mem_cons_of_mem _ hkv')) hk kv h' t ht

theorem addToGroups_keys (key : String) (s : Section) :
    ∀ gs : List (String × List Section),
      (addToGroups key s gs).map Prod.fst =
        if key ∈ gs.map Prod.fst then gs.map Prod.fst
        else gs.map Prod.fst ++ [key] := by
  intro gs
  induction gs with
  | nil => simp [addToGroups]
  | cons g rest ih =>
    obtain ⟨k, ss⟩ := g
    rw [addToGroups]
    by_cases hkey : k = key
    · rw [if_pos hkey]
      simp [hkey]
    · rw [if_neg hkey]
      simp only [List.map_cons, ih, List.mem_cons]
      by_cases hmem : key ∈ rest.map Prod.fst
      · rw [if_pos hmem, if_pos (Or.inr hmem)]
      · rw [if_neg hmem, if_neg (by
          intro hor
          rcases hor with h' | h'
          · exact hkey h'.symm
          · exact hmem h')]
        simp

theorem addToGroups_nodup (key : String) (s : Section)
    (gs : List (String × List Section)) (h : (gs.map Prod.fst).Nodup) :
    ((addToGroups key s gs).map Prod.fst).Nodup := by
  rw [addToGroups_keys]
  by_cases hmem : key ∈ gs.map Prod.fst
  · rwa [if_pos hmem]
  · rw [if_neg hmem]
    rw [List.nodup_append]
    exact ⟨h, List.nodup_singleton key, fun a ha hb => hmem ((List.mem_singleton.mp hb) ▸ ha)⟩

theorem addToGroups_perm (key : String) (s : Section) :
    ∀ gs : List (String × List Section),
      List.Perm ((addToGroups key s gs).map Prod.snd).flatten
        ((gs.map Prod.snd).flatten ++ [s]) := by
  intro gs
  induction gs with
  | nil => simp [addToGroups]
  | cons g rest ih =>
    obtain ⟨k, ss⟩ := g
    rw [addToGroups]
    by_cases hkey : k = key
    · rw [if_pos hkey]
      simp only [List.map_cons, List.flatten_cons, List.append_assoc]
      refine List.Perm.append_left ss ?_
      simpa using @List.perm_append_comm _ [s] ((rest.map Prod.snd).flatten)
    · rw [if_neg hkey]
      simp only [List.map_cons, List.flatten_cons, List.append_assoc]
      exact List.Perm.append_left ss ih


theorem groups_foldl_invariant (sections : List Section) :
    ∀ gs : List (String × List Section),
      (gs.map Prod.fst).Nodup →
      (∀ kv ∈ gs, ∀ t ∈ kv.2, normalize_title t.title = kv.1) →
      (((sections.foldl (fun a s => addToGroups (normalize_title s.title) s a) gs).map
            Prod.fst).Nodup ∧
        (∀ kv ∈ sections.foldl (fun a s => addToGroups (normalize_title s.title) s a) gs,
          ∀ t ∈ kv.2, normalize_title t.title = kv.1) ∧
        List.Perm
          (((sections.foldl (fun a s => addToGroups (normalize_title s.title) s a) gs).map
              Prod.snd).flatten)
          ((gs.map Prod.snd).flatten ++ sections)) := by
  induction sections with
  | nil =>
    intro gs h1 h2
    exact ⟨h1, h2, by simp⟩
  | cons s rest ih =>
    intro gs h1 h2
    rw [List.foldl_cons]
    obtain ⟨ih1, ih2, ih3⟩ :=
      ih (addToGroups (normalize_title s.title) s gs)
        (addToGroups_nodup _ s gs h1)
        (addToGroups_correct _ s gs h2 rfl)
    refine ⟨ih1, ih2, ?_⟩
    refine ih3.trans ?_
    refine (List.Perm.append_right rest (addToGroups_perm _ s gs)).trans ?_
    simp

/-- C10: the grouper's output is a partition of its input keyed by
normalized title — keys are distinct, the groups' members are a permutation
of the input (no section duplicated or dropped), and every section sits in
the group keyed by the normalization of its title. -/
theorem c10_grouping_partition (sections : List Section) :
    ((group_similar_sections sections).map Prod.fst).Nodup ∧
      List.Perm (((group_similar_sections sections).map Prod.snd).flatten) sections ∧
      ∀ kv ∈ group_similar_sections sections, ∀ t ∈ kv.2,
        normalize_title t.title = kv.1 := by
  obtain ⟨h1, h2, h3⟩ :=
    groups_foldl_invariant sections [] (by simp) (by intro kv hkv; cases hkv)
  refine ⟨h1, ?_, h2⟩
  simpa using h3

/-- C10 witness: in the grouping of a concrete singleton input, the
section's normalized title equals its group's key. -/
theorem c10_grouping_partition_witness :
    normalize_title (Section.make "The Intro" "x" 1 Provider.openai).title = "intro" :=
  (c10_grouping_partition [Section.make "The Intro" "x" 1 Provider.openai]).2.2
    ("intro", [Section.make "The Intro" "x" 1 Provider.openai]) (by decide)
    (Section.make "The Intro" "x" 1 Provider.openai) (by decide)


/-- C5: two sections whose contents are identical after trimming and whose
titles normalize to the same grouping key have equal content hashes, and
reconciliation collapses them into exactly one merged section carrying the
first section's content and both contributing providers in `sources`.  The
`hh1`/`hh2` hypotheses say each section's stored hash is the one
`__post_init__` computed from its current content — i.e. the sections are as
the dataclass constructor built them, not mutated afterwards; the collapse
also holds for parser-mutated sections, whose stored hashes are equal
(both the empty digest) whenever their trimmed contents are or are not. -/
theorem c5_dedup_collapse (s1 s2 : Section) (llm : MergeLLM)
    (hh1 : s1.hash = pyStrip s1.content) (hh2 : s2.hash = pyStrip s2.content)
    (hc : pyStrip s1.content = pyStrip s2.content)
    (ht : normalize_title s1.title = normalize_title s2.title) :
    s1.hash = s2.hash ∧
      merge_section_groups llm (group_similar_sections [s1, s2]) =
        [⟨s1.title, s1.content, s1.level, [s1.provider, s2.provider]⟩] := by
  have hhash : s1.hash = s2.hash := by rw [hh1, hh2, hc]
  refine ⟨hhash, ?_⟩
  have hgroup : group_similar_sections [s1, s2] =
      [(normalize_title s1.title, [s1, s2])] := by
    simp [group_similar_sections, addToGroups, ht]
  rw [hgroup]
  have huniq : uniqueByHash [s1, s2] = [s1] := by
    simp [uniqueByHash, hhash]
  rw [merge_section_groups]
  simp only [List.map_cons, List.map_nil, mergeGroup]
  rw [merge_similar_content, huniq]
  simp [List.insertionSort, List.orderedInsert]

/-- C5 witness: two concrete sections with identical trimmed content and
title-equivalent keys collapse to a single merged section. -/
theorem c5_dedup_collapse_witness :
    pyStrip ("x " : String) = pyStrip ("x" : String) ∧
      normalize_title "The Intro" = normalize_title "Intro" ∧
      merge_section_groups none
          (group_similar_sections
            [Section.make "The Intro" "x " 1 Provider.openai,
              Section.make "Intro" "x" 1 Provider.anthropic]) =
        [⟨"The Intro", "x ", 1, [Provider.openai, Provider.anthropic]⟩] :=
  ⟨by decide, by decide,
    (c5_dedup_collapse (Section.make "The Intro" "x " 1 Provider.openai)
        (Section.make "Intro" "x" 1 Provider.anthropic) none
        (by decide) (by decide) (by decide) (by decide)).2⟩


/-- C4 (code bug): the source's own design — the `Section.hash` field is
documented as "a hash of the content for deduplication", and the
specification's reconciler contract requires a divergent group to fall back
to the attributed concatenation — is defeated by a construction-order slip:
the parser constructs every `Section` with `content=""`, freezing `hash` at
the digest of the empty string, and the later assignment to `.content` never
recomputes it.  All parser-produced sections are therefore hash-equal, the
dedup in `merge_similar_content` collapses every group to a singleton, and a
genuinely divergent group silently returns the first provider's variant:
the attributed-concatenation fallback the claim describes is unreachable
from the pipeline.  This theorem evaluates the pipeline at the failing
input: two reports with the same section title and different contents,
merge provider unconfigured. -/
theorem c4_stale_hash_collapse_bug :
    ((allSections
        [⟨Provider.openai, "## Market Overview\nAAA"⟩,
          ⟨Provider.anthropic, "## Market Overview\nBBB"⟩]).map Section.content =
        ["AAA", "BBB"]) ∧
      ((allSections
          [⟨Provider.openai, "## Market Overview\nAAA"⟩,
            ⟨Provider.anthropic, "## Market Overview\nBBB"⟩]).map Section.hash =
        [emptyHash, emptyHash]) ∧
      (mergedSectionsOf none
          [⟨Provider.openai, "## Market Overview\nAAA"⟩,
            ⟨Provider.anthropic, "## Market Overview\nBBB"⟩] =
        [⟨"Market Overview", "AAA", 2, [Provider.openai, Provider.anthropic]⟩]) ∧
      ("AAA" : String) ≠
        "**According to openai:**\nAAA\n\n**According to anthropic:**\nBBB" := by
  decide


theorem create_metadata_footer_length_pos (reports : List ProviderReport) (now : String) :
    0 < (create_metadata_footer reports now).length := by
  apply length_append_pos_left
  apply length_append_pos_left
  apply length_append_pos_left
  apply length_append_pos_left
  apply length_append_pos_left
  decide

theorem create_fallback_report_ne_empty (merged : List MergedSection)
    (reports : List ProviderReport) (now : String) :
    create_fallback_report merged reports now ≠ "" := by
  apply append_ne_empty_left
  apply length_append_pos_left
  apply length_append_pos_left
  apply length_append_pos_left
  decide

/-- C2: `merge_reports` is total (a total Lean function, mirroring that
every exception path of the source is caught) and on any non-empty report
list returns non-empty content; when the merge provider is unconfigured, or
its master-synthesis call raises, the result is exactly the deterministic
fallback report built by `create_fallback_report` (header, executive-summary
stub, each merged section with its source-attribution line, metadata
footer). -/
theorem c2_merge_totality (llm : MergeLLM) (reports : List ProviderReport) (now : String)
    (h : reports ≠ []) :
    (merge_reports llm reports now).content ≠ "" ∧
      (llm = none →
        merge_reports llm reports now =
          ⟨create_fallback_report (mergedSectionsOf llm reports) reports now, none⟩) ∧
      (∀ f msg, llm = some f →
        f (masterPrompt (mergedSectionsOf llm reports)) = Except.error msg →
        merge_reports llm reports now =
          ⟨create_fallback_report (mergedSectionsOf llm reports) reports now, none⟩) := by
  refine ⟨?_, ?_, ?_⟩
  · rw [merge_reports]
    cases llm with
    | none => exact create_fallback_report_ne_empty _ _ _
    | some f =>
      have he : generate_master_report (some f) (mergedSectionsOf (some f) reports)
            reports now =
          match f (masterPrompt (mergedSectionsOf (some f) reports)) with
          | .ok result =>
            ⟨result.content ++ create_metadata_footer reports now, result.thinking⟩
          | .error _ =>
            ⟨create_fallback_report (mergedSectionsOf (some f) reports) reports now, none⟩ :=
        rfl
      rw [he]
      cases f (masterPrompt (mergedSectionsOf (some f) reports)) with
      | ok result =>
        exact append_ne_empty_right _ _ (create_metadata_footer_length_pos reports now)
      | error msg => exact create_fallback_report_ne_empty _ _ _
  · intro hl
    subst hl
    rfl
  · intro f msg hl hf
    subst hl
    have he : merge_reports (some f) reports now =
        match f (masterPrompt (mergedSectionsOf (some f) reports)) with
        | .ok result =>
          ⟨result.content ++ create_metadata_footer reports now, result.thinking⟩
        | .error _ =>
          ⟨create_fallback_report (mergedSectionsOf (some f) reports) reports now, none⟩ :=
      rfl
    rw [he, hf]

/-- C2 witness: a concrete non-empty report list merged with the provider
unconfigured yields non-empty content equal to the fallback report. -/
theorem c2_merge_totality_witness :
    ([⟨Provider.openai, "# T\nbody"⟩] : List ProviderReport) ≠ [] ∧
      (merge_reports none [⟨Provider.openai, "# T\nbody"⟩] "2026-01-01 00:00:00 UTC").content
          ≠ "" ∧
      merge_reports none [⟨Provider.openai, "# T\nbody"⟩] "2026-01-01 00:00:00 UTC" =
        ⟨create_fallback_report
            (mergedSectionsOf none [⟨Provider.openai, "# T\nbody"⟩])
            [⟨Provider.openai, "# T\nbody"⟩] "2026-01-01 00:00:00 UTC",
          none⟩ :=
  ⟨by decide,
    (c2_merge_totality none [⟨Provider.openai, "# T\nbody"⟩] "2026-01-01 00:00:00 UTC"
        (by decide)).1,
    (c2_merge_totality none [⟨Provider.openai, "# T\nbody"⟩] "2026-01-01 00:00:00 UTC"
        (by decide)).2.1 rfl⟩

end SDR
